import Mathlib

/-!
Shallow embedding of the sarchive event pipeline (itkovian/sarchive).

Conventions used throughout this development:
* Rust `String` and `Vec<u8>` buffers are modelled as `List Char`; the byte
  values relevant to the verified claims (NUL, `=`, ASCII names) occupy a
  single byte in UTF-8, so splitting at them commutes with decoding and the
  `String::from_utf8_lossy` step is the identity on the modelled buffers.
* Wall-clock / monotonic time is a `Nat` counted in milliseconds; each 10 ms
  poll sleep of `utils::read_file` advances an abstract tick counter.
* The filesystem is a trace: predicates indexed by the tick counter.
* Fallible Rust code returns `Except`/`Option`; a Rust `panic!` is a dedicated
  constructor or `none`.
-/

namespace Sarchive

/-- The NUL character (byte 0), the entry delimiter of the Slurm environment
payload. -/
def nulChar : Char := Char.ofNat 0

/-- The Unicode `White_Space` code points, as used by the Rust
`char::is_whitespace` (called by `str::trim` in `extra_info`). -/
def rust_is_whitespace (c : Char) : Bool :=
  c.toNat = 0x20 ∨ (0x9 ≤ c.toNat ∧ c.toNat ≤ 0xD) ∨ c.toNat = 0x85 ∨
    c.toNat = 0xA0 ∨ c.toNat = 0x1680 ∨ (0x2000 ≤ c.toNat ∧ c.toNat ≤ 0x200A) ∨
    c.toNat = 0x2028 ∨ c.toNat = 0x2029 ∨ c.toNat = 0x202F ∨
    c.toNat = 0x205F ∨ c.toNat = 0x3000

/-- Rust `str::split(sep)`: the list of (possibly empty) spans between
occurrences of `sep`.  `split` of the empty string is `[""]`. -/
def rust_split (sep : Char) : List Char → List (List Char)
  | [] => [[]]
  | c :: rest =>
    if c = sep then [] :: rust_split sep rest
    else
      match rust_split sep rest with
      | [] => [[c]]
      | r :: rs => (c :: r) :: rs

/-- Rust `str::trim_start`: drop leading whitespace. -/
def rust_trim_start (s : List Char) : List Char :=
  s.dropWhile rust_is_whitespace

/-- Rust `str::trim_end`: drop trailing whitespace. -/
def rust_trim_end (s : List Char) : List Char :=
  (s.reverse.dropWhile rust_is_whitespace).reverse

/-- Rust `str::trim`: drop leading and trailing whitespace. -/
def rust_trim (s : List Char) : List Char :=
  rust_trim_end (rust_trim_start s)

/-! ### utils::read_file (src/utils.rs)

The polling read.  The filesystem is modelled as a trace indexed by the
number of 10 ms sleeps performed so far. -/

/-- A filesystem trace, as observed by the polling loop of
`utils::read_file`: at tick `t`, whether `<path>/<filename>` exists, whether
the parent `path` exists, and the bytes `fs::read` would return. -/
structure FsTrace where
  fileExists : Nat → Bool
  parentExists : Nat → Bool
  contents : Nat → List Char

/-- The two `ErrorKind::NotFound` failures of `utils::read_file`. -/
inductive ReadFileError
  | parentGone
  | timeout
  deriving DecidableEq, Repr

/-- The `while !Path::exists(&fpath) && iters > 0` loop of `utils::read_file`,
followed by the `match iters` on exit.  `t` is the current tick; each sleep
advances it by one.  When the loop exits with `iters = 0` the function
returns the timeout error (even when the file exists at that point);
otherwise it returns `fs::read` of the file at the exit tick. -/
def read_file_loop (fs : FsTrace) : Nat → Nat → Except ReadFileError (List Char)
  | 0, _ => .error .timeout
  | i + 1, t =>
    if fs.fileExists t then .ok (fs.contents t)
    else if fs.parentExists (t + 1) = false then .error .parentGone
    else read_file_loop fs i (t + 1)

/-- Rust `utils::read_file`: the iteration bound defaults to 100 when the caller
passes `None`. -/
def read_file (fs : FsTrace) (iters : Option Nat) : Except ReadFileError (List Char) :=
  read_file_loop fs (iters.getD 100) 0

/-! ### scheduler::slurm (src/scheduler/slurm.rs) -/

/-- An entry of the Slurm spool hash directories (`SlurmJobEntry`).  The
`filter_regex` is modelled as an abstract match predicate on strings
(`Regex::is_match`); paths are lists of components. -/
structure SlurmJobEntry where
  path_ : List (List Char)
  jobid_ : List Char
  cluster_ : List Char
  moment_ : Nat
  script_ : Option (List Char)
  env_ : Option (List Char)
  filter_regex : Option (List Char → Bool)

/-- Rust `SlurmJobEntry::new`: fresh entry, script and environment unpopulated. -/
def SlurmJobEntry.new (path : List (List Char)) (id cluster : List Char)
    (filter_regex : Option (List Char → Bool)) (now : Nat) : SlurmJobEntry :=
  { path_ := path, jobid_ := id, cluster_ := cluster, moment_ := now,
    script_ := none, env_ := none, filter_regex := filter_regex }

/-- Rust `filter_env`: true when a regex is configured and it matches. -/
def filter_env (r : Option (List Char → Bool)) (env : List Char) : Bool :=
  match r with
  | some rs => rs env
  | none => false

/-- Rust `SlurmJobEntry::read_job_info`.  The two `utils::read_file` results (for
`<path>/script` and `<path>/environment`) are passed as parameters.  The
script is stored with a single trailing NUL byte removed when present; the
environment is stored as read.  The assignment to `script_` happens before
the environment read, so an environment failure leaves the script populated;
the returned pair is the updated entry together with the error, if any. -/
def read_job_info (e : SlurmJobEntry)
    (scriptRead envRead : Except ReadFileError (List Char)) :
    SlurmJobEntry × Option ReadFileError :=
  match scriptRead with
  | .error err => (e, some err)
  | .ok s =>
    let s' := if s.getLast? = some nulChar then s.dropLast else s
    let e1 := { e with script_ := some s' }
    match envRead with
    | .error err => (e1, some err)
    | .ok v => ({ e1 with env_ := some v }, none)

/-- Rust `SlurmJobEntry::files`: the `(filename, contents)` pairs for the
populated members, named `job.<id>_script` and `job.<id>_environment`. -/
def SlurmJobEntry.files (e : SlurmJobEntry) : List (List Char × List Char) :=
  [("script".toList, e.script_), ("environment".toList, e.env_)].filterMap
    (fun nv =>
      nv.2.map (fun s =>
        ("job.".toList ++ e.jobid_ ++ "_".toList ++ nv.1, s)))

/-- Rust `SlurmJobEntry::script`: the stored script; the `None` arm of the source
`match` is a `panic!`, modelled as `none`. -/
def SlurmJobEntry.scriptResult (e : SlurmJobEntry) : Option (List Char) :=
  match e.script_ with
  | some s => some s
  | none => none

/-- Parse one NUL-delimited span of the environment payload, as the closure
inside `extra_info` does: trim it, drop it when empty, split at `=`; a span
with exactly one `=` becomes a (re-trimmed) key/value pair, kept when the
key is non-empty and not matched by the filter; any other span is kept
whole as a key with empty value. -/
def extra_info_entry (r : Option (List Char → Bool)) (entry0 : List Char) :
    Option (List Char × List Char) :=
  let entry := rust_trim entry0
  if entry ≠ [] then
    match rust_split '=' entry with
    | [k, v] =>
      let key := rust_trim k
      if key ≠ [] ∧ ¬ filter_env r key then some (key, v) else none
    | _ => some (entry, [])
  else none

/-- Rust `SlurmJobEntry::extra_info`: strip the 4-byte header (`split_at(4).1`),
split the rest at NUL and collect the parsed pairs.  The result is kept as
the list of pairs in encounter order (the source collects them into a
`HashMap`). -/
def extra_info (e : SlurmJobEntry) : Option (List (List Char × List Char)) :=
  e.env_.map (fun s =>
    (rust_split nulChar (s.drop 4)).filterMap (extra_info_entry e.filter_regex))

/-- Modelled from the spec (round-trip direction of claim C5): serialize a
`KEY -> VALUE` mapping as a NUL-terminated sequence of `KEY=VALUE` entries,
prefixed with a 4-byte header. -/
def spec_serialize_env (header : List Char) (m : List (List Char × List Char)) :
    List Char :=
  header ++ (m.map (fun kv => kv.1 ++ '=' :: kv.2 ++ [nulChar])).flatten

/-! ### Path qualification (src/scheduler/slurm.rs, src/monitor.rs)

Paths are lists of components; whether a path currently names a directory is
part of the filesystem state, passed as a predicate. -/

/-- Rust `Path::extension` applied to a file name: the span after the last
`.`, absent when there is no `.` or when the only `.` is the leading
character. -/
def rust_extension (name : List Char) : Option (List Char) :=
  match rust_split '.' name with
  | [] => none
  | [_] => none
  | [[], _] => none
  | parts => parts.getLast?

/-- Rust `is_job_path`: the path must currently be a directory and its basename
must start with `job.`; on success returns the extension (the job id) and
the basename.  (`file_name().unwrap()` and `extension().unwrap()` cannot
panic on a non-empty path whose basename starts with `job.`; the empty path
is mapped to `none`.) -/
def is_job_path (isDir : List (List Char) → Bool) (p : List (List Char)) :
    Option (List Char × List Char) :=
  if isDir p then
    match p.getLast? with
    | some dirname =>
      if dirname.take 4 = "job.".toList then
        some ((rust_extension dirname).getD [], dirname)
      else none
    | none => none
  else none

/-- The event kinds of the `notify` crate that matter here. -/
inductive CreateKind
  | any
  | file
  | folder
  | other
  deriving DecidableEq, Repr

/-- Raw notifier event kinds. -/
inductive EventKind
  | any
  | access
  | create (k : CreateKind)
  | modify
  | remove
  | other
  deriving DecidableEq, Repr

/-- A raw notifier event: its kind and its paths. -/
structure NotifyEvent where
  kind : EventKind
  paths : List (List (List Char))
  deriving DecidableEq, Repr

/-- Rust `Slurm::verify_event_kind`: only `Create(Folder)` events qualify; their
paths are returned. -/
def verify_event_kind (ev : NotifyEvent) : Option (List (List (List Char))) :=
  match ev.kind with
  | .create .folder => some ev.paths
  | _ => none

/-- Rust `Slurm::create_job_info`: re-validate the path with `is_job_path` and
build the entry from the extracted job id. -/
def create_job_info (isDir : List (List Char) → Bool)
    (cluster : List Char) (filter_regex : Option (List Char → Bool))
    (now : Nat) (event_path : List (List Char)) : Option SlurmJobEntry :=
  (is_job_path isDir event_path).map (fun jd =>
    SlurmJobEntry.new event_path jd.1 cluster filter_regex now)

/-- Outcome of `monitor::check_and_queue`: `ok sent` is `Ok(())` together
with the work items pushed onto the channel, `err` is an `Err` return
(which the `?` in `monitor` turns into watcher exit), and `panicked` is the
`paths[0]` index panic on an event with no paths. -/
inductive CQResult
  | ok (sent : List SlurmJobEntry)
  | err
  | panicked

/-- Rust `monitor::check_and_queue`: a non-qualifying kind is dropped with
`Ok(())`; a qualifying kind leads to `create_job_info` on the first path,
whose `None` is turned into an `Err` by `ok_or_else`; on success the entry
is sent (`sendOk` models whether the channel send succeeds). -/
def check_and_queue (isDir : List (List Char) → Bool)
    (cluster : List Char) (filter_regex : Option (List Char → Bool))
    (now : Nat) (sendOk : Bool) (ev : NotifyEvent) : CQResult :=
  match verify_event_kind ev with
  | some paths =>
    match paths with
    | [] => .panicked
    | p :: _ =>
      match create_job_info isDir cluster filter_regex now p with
      | some j => if sendOk then .ok [j] else .err
      | none => .err
  | none => .ok []

/-! ### archive::file (src/archive/file.rs) -/

/-- The period of the time bucketing of the filesystem sink. -/
inductive Period
  | daily
  | monthly
  | yearly
  | none
  deriving DecidableEq, Repr

/-- Rust `file::determine_target_path`: append the formatted date bucket for the
period, if any.  The three `chrono` format strings are passed in as the
current wall-clock renderings. -/
def determine_target_path (archive_path : List (List Char)) (p : Period)
    (yyyy yyyymm yyyymmdd : List Char) : List (List Char) :=
  match p with
  | .yearly => archive_path ++ [yyyy]
  | .monthly => archive_path ++ [yyyymm]
  | .daily => archive_path ++ [yyyymmdd]
  | .none => archive_path

/-- Rust `FileArchive::archive`: the files written for one record.  Each
`(fname, fcontents)` of `job_entry.files()` is created under the target
path and written with `write_all(fcontents)`, so the written bytes are
exactly the stored bytes. -/
def file_archive_writes (target_path : List (List Char)) (e : SlurmJobEntry) :
    List (List (List Char) × List Char) :=
  e.files.map (fun fc => (target_path ++ [fc.1], fc.2))

/-! ### archive::kafka (src/archive/kafka.rs) -/

/-- The canonical document serialized by the Kafka sink (`JobMessage`). -/
structure JobMessage where
  id : List Char
  timestamp : Nat
  cluster : List Char
  script : List Char
  environment : Option (List (List Char × List Char))

/-- The archive error surfaced by a sink. -/
inductive ArchiveError
  | invalidData
  deriving DecidableEq, Repr

/-- Rust `KafkaArchive::archive`: build the `JobMessage` document, serialize it
(`serde_json::to_string`, abstracted as the `serialize` parameter) and send
it; both the `Ok` and the `Err` arm of the producer send return `Ok(())`,
while a serialization failure returns an `InvalidData` error.  `sendOk`
models the transport-level outcome of `producer.send`. -/
def kafka_archive (serialize : JobMessage → Option (List Char))
    (sendOk : Bool) (doc : JobMessage) : Except ArchiveError Unit :=
  match serialize doc with
  | some _ => if sendOk then .ok () else .ok ()
  | Option.none => .error .invalidData

/-- The document the Kafka sink builds from a job entry at wall-clock
`now`: `{id, timestamp, cluster, script, environment}`. -/
def kafka_doc (e : SlurmJobEntry) (now : Nat) (script : List Char) : JobMessage :=
  { id := e.jobid_, timestamp := now, cluster := e.cluster_,
    script := script, environment := extra_info e }

/-! ### archive::process_create (src/archive/mod.rs)

The processor is a loop over a `select!` of the stop channel and the work
channel.  The nondeterministic interleaving resolved by `select!` is the
input: a list of delivery steps.  A work item is abstracted to its
construction moment and the outcomes of its `read_job_info` and
`archive_creation` calls. -/

/-- A work item as the processor sees it: when it was constructed and
whether its read and archive calls succeed. -/
structure ProcJob where
  moment : Nat
  readOk : Bool
  archiveOk : Bool
  deriving DecidableEq, Repr

/-- Processor state: the current wall-clock time (ms) and the archive calls
made so far, each with the time at which it was issued. -/
structure ProcState where
  now : Nat
  submissions : List (ProcJob × Nat)
  deriving DecidableEq, Repr

/-- One delivery step of the `select!` loop: a message on the stop channel
or a work item from the work channel. -/
inductive Step
  | deliverSig (b : Bool)
  | deliverWork (e : ProcJob)
  deriving DecidableEq, Repr

/-- The work items of a schedule suffix: what `r.iter()` yields during the
cleanup drain (messages on the stop channel are not read there). -/
def worksOf (sched : List Step) : List ProcJob :=
  sched.filterMap (fun s =>
    match s with
    | .deliverWork e => some e
    | _ => Option.none)

/-- The debounce of the work-event arm: `elapsed = moment.elapsed()`; when
`Duration::from_millis(2000).checked_sub(elapsed)` is positive the
processor sleeps for the difference.  Both subtractions are saturating,
exactly like `Nat` subtraction. -/
def debounce_time (now moment : Nat) : Nat :=
  if now - moment < 2000 then now + (2000 - (now - moment)) else now

/-- The cleanup drain (`for mut entry in r.iter()`): each remaining entry is
read and archived at the current time, with no debounce and no look at the
stop channel; a failing read or archive call propagates out of
`process_create` (`?`), recorded as the `false` flag.  The archive call of
an entry that read successfully is recorded even when it fails. -/
def drain (st : ProcState) : List ProcJob → ProcState × Bool
  | [] => (st, true)
  | e :: rest =>
    if e.readOk then
      let st' : ProcState :=
        { now := st.now, submissions := st.submissions ++ [(e, st.now)] }
      if e.archiveOk then drain st' rest else (st', false)
    else (st, false)

/-- Rust `process_create`, resolved against a delivery schedule.  The Boolean
result is `true` for an `Ok(())` return (a `break` of the loop or the end
of the observed schedule) and `false` for an error return via `?`. -/
def process_create (cleanup : Bool) : List Step → ProcState → ProcState × Bool
  | [], st => (st, true)
  | .deliverSig b :: rest, st =>
    if b then
      if cleanup then drain st (worksOf rest) else (st, true)
    else process_create cleanup rest st
  | .deliverWork e :: rest, st =>
    let t := debounce_time st.now e.moment
    if e.readOk then
      let st' : ProcState :=
        { now := t, submissions := st.submissions ++ [(e, t)] }
      if e.archiveOk then process_create cleanup rest st' else (st', false)
    else ({ st with now := t }, false)

/-! ### utils::signal_handler_atomic (src/utils.rs) -/

/-- The `while sig.load(SeqCst)` loop of `signal_handler_atomic`: the flag
is read as a trace indexed by the number of loop iterations; the loop exits
at the first read that yields `false` and the handler then sends twenty
`true` values on the stop channel.  `fuel` bounds the observed iterations;
`none` means the loop was still parked/snoozing when the fuel ran out. -/
def signal_handler_loop (sigTrace : Nat → Bool) : Nat → Nat → Option Nat
  | 0, _ => none
  | fuel + 1, t => if sigTrace t then signal_handler_loop sigTrace fuel (t + 1) else some t

/-- Rust `signal_handler_atomic`: once the loop exits, broadcast twenty `true`
values.  The result is the list of values sent, or `none` when the loop was
still running after `fuel` flag reads. -/
def signal_handler_atomic (sigTrace : Nat → Bool) (fuel : Nat) : Option (List Bool) :=
  (signal_handler_loop sigTrace fuel 0).map (fun _ => List.replicate 20 true)

/-! ### Helper lemmas -/

/-- Splitting a string that starts with a separator-free span followed by
the separator yields that span first. -/
theorem rust_split_append (sep : Char) (xs ys : List Char) (h : sep ∉ xs) :
    rust_split sep (xs ++ sep :: ys) = xs :: rust_split sep ys := by
  induction xs with
  | nil => simp [rust_split]
  | cons c xs ih =>
    have hc : ¬ c = sep := by
      intro hcs
      exact h (hcs ▸ List.mem_cons_self c xs)
    have hxs : sep ∉ xs := fun hm => h (List.mem_cons_of_mem c hm)
    simp only [List.cons_append, rust_split, if_neg hc, List.append_eq, ih hxs]

/-- Splitting a separator-free string yields the string itself. -/
theorem rust_split_of_not_mem (sep : Char) (xs : List Char) (h : sep ∉ xs) :
    rust_split sep xs = [xs] := by
  induction xs with
  | nil => rfl
  | cons c xs ih =>
    have hc : ¬ c = sep := by
      intro hcs
      exact h (hcs ▸ List.mem_cons_self c xs)
    have hxs : sep ∉ xs := fun hm => h (List.mem_cons_of_mem c hm)
    simp only [rust_split, if_neg hc, ih hxs]

/-- Lemma: `dropWhile` leaves a list unchanged when it leaves unchanged a non-empty
prefix of it. -/
theorem dropWhile_append_of_stable (p : Char → Bool) (l r : List Char)
    (hl : l.dropWhile p = l) (hne : l ≠ []) :
    (l ++ r).dropWhile p = l ++ r := by
  cases l with
  | nil => exact absurd rfl hne
  | cons c l' =>
    have hc : p c = false := by
      cases hpc : p c with
      | false => rfl
      | true =>
        have hlen : ((c :: l').dropWhile p).length ≤ l'.length := by
          rw [List.dropWhile_cons, hpc]
          simpa using (List.dropWhile_sublist (l := l') p).length_le
        rw [hl] at hlen
        simp at hlen
    simp [List.dropWhile_cons, hc]

/-- A trim-stable string is stable under both one-sided trims. -/
theorem trim_eq_self (l : List Char) (h : rust_trim l = l) :
    rust_trim_start l = l ∧ rust_trim_end l = l := by
  have h1 : (rust_trim_start l).length ≤ l.length := by
    simpa [rust_trim_start] using
      (List.dropWhile_sublist (l := l) rust_is_whitespace).length_le
  have h2 : (rust_trim l).length ≤ (rust_trim_start l).length := by
    simpa [rust_trim, rust_trim_end] using
      (List.dropWhile_sublist (l := (rust_trim_start l).reverse)
        rust_is_whitespace).length_le
  have hlen : (rust_trim_start l).length = l.length := by
    rw [h] at h2
    omega
  have hstart : rust_trim_start l = l :=
    (List.dropWhile_sublist (l := l) rust_is_whitespace).eq_of_length hlen
  refine ⟨hstart, ?_⟩
  have := h
  rw [rust_trim, hstart] at this
  exact this

/-- A trim-stable string is stable under `dropWhile` of whitespace. -/
theorem dropWhile_ws_of_trim (l : List Char) (h : rust_trim l = l) :
    l.dropWhile rust_is_whitespace = l :=
  (trim_eq_self l h).1

/-- A trim-stable string reversed is stable under `dropWhile` of
whitespace. -/
theorem dropWhile_ws_reverse_of_trim (l : List Char) (h : rust_trim l = l) :
    l.reverse.dropWhile rust_is_whitespace = l.reverse := by
  have hend : rust_trim_end l = l := (trim_eq_self l h).2
  have := congrArg List.reverse hend
  rwa [rust_trim_end, List.reverse_reverse] at this

/-- The entry `k ++ "=" ++ v` of a serialized pair is trim-stable when its
key and value are. -/
theorem entry_trim_stable (k v : List Char) (hk : rust_trim k = k)
    (hkne : k ≠ []) (hv : rust_trim v = v) :
    rust_trim (k ++ '=' :: v) = k ++ '=' :: v := by
  have hstart : rust_trim_start (k ++ '=' :: v) = k ++ '=' :: v :=
    dropWhile_append_of_stable _ k ('=' :: v) (dropWhile_ws_of_trim k hk) hkne
  have hrev : (k ++ '=' :: v).reverse = (v.reverse ++ ['=']) ++ k.reverse := by
    simp
  have hl0 : (v.reverse ++ ['=']).dropWhile rust_is_whitespace
      = v.reverse ++ ['='] := by
    by_cases hvnil : v = []
    · subst hvnil
      decide
    · exact dropWhile_append_of_stable _ v.reverse ['=']
        (dropWhile_ws_reverse_of_trim v hv) (by simpa using hvnil)
  have hend : rust_trim_end (k ++ '=' :: v) = k ++ '=' :: v := by
    rw [rust_trim_end, hrev,
      dropWhile_append_of_stable _ (v.reverse ++ ['=']) k.reverse hl0 (by simp),
      ← hrev, List.reverse_reverse]
  rw [rust_trim, hstart, hend]

/-- Conditions on a key/value pair under which the environment
serialization round-trips: the key is non-empty, both components are free
of `=` and NUL, and both are trim-stable. -/
def goodKV (kv : List Char × List Char) : Bool :=
  kv.1 ≠ [] ∧ '=' ∉ kv.1 ∧ nulChar ∉ kv.1 ∧ rust_trim kv.1 = kv.1
    ∧ '=' ∉ kv.2 ∧ nulChar ∉ kv.2 ∧ rust_trim kv.2 = kv.2

/-- A well-formed serialized pair is parsed back by the entry closure of
`extra_info` (with no filter regex). -/
theorem extra_info_entry_of_good (k v : List Char) (hkne : k ≠ [])
    (hkeq : '=' ∉ k) (hktr : rust_trim k = k) (hveq : '=' ∉ v)
    (hvtr : rust_trim v = v) :
    extra_info_entry none (k ++ '=' :: v) = some (k, v) := by
  have htrim : rust_trim (k ++ '=' :: v) = k ++ '=' :: v :=
    entry_trim_stable k v hktr hkne hvtr
  have hsplit : rust_split '=' (k ++ '=' :: v) = [k, v] := by
    rw [rust_split_append '=' k v hkeq, rust_split_of_not_mem '=' v hveq]
  have hne : k ++ '=' :: v ≠ [] := by simp
  rw [extra_info_entry, htrim, if_pos hne, hsplit]
  simp [hktr, filter_env, hkne]

/-- The body of the round-trip: parsing the NUL-delimited concatenation of
well-formed `KEY=VALUE` entries recovers the pair list. -/
theorem parse_serialized_entries (m : List (List Char × List Char))
    (hm : m.all goodKV = true) :
    (rust_split nulChar
        ((m.map (fun kv => kv.1 ++ '=' :: kv.2 ++ [nulChar])).flatten)).filterMap
      (extra_info_entry none) = m := by
  induction m with
  | nil =>
    simp only [List.map_nil, List.flatten_nil]
    decide
  | cons kv m ih =>
    have hkv : goodKV kv = true := by
      simp only [List.all_cons, Bool.and_eq_true] at hm
      exact hm.1
    have hmrest : m.all goodKV = true := by
      simp only [List.all_cons, Bool.and_eq_true] at hm
      exact hm.2
    obtain ⟨k, v⟩ := kv
    simp only [goodKV, decide_eq_true_eq] at hkv
    obtain ⟨hkne, hkeq, hknul, hktr, hveq, hvnul, hvtr⟩ := hkv
    have hnotmem : nulChar ∉ k ++ '=' :: v := by
      intro hmem
      rcases List.mem_append.mp hmem with h1 | h2
      · exact hknul h1
      · rcases List.mem_cons.mp h2 with h3 | h4
        · exact absurd h3.symm (by decide)
        · exact hvnul h4
    have hassoc : (k ++ '=' :: v ++ [nulChar])
        ++ (m.map (fun kv => kv.1 ++ '=' :: kv.2 ++ [nulChar])).flatten
        = (k ++ '=' :: v)
          ++ nulChar :: (m.map (fun kv => kv.1 ++ '=' :: kv.2 ++ [nulChar])).flatten := by
      simp
    simp only [List.map_cons, List.flatten_cons, hassoc,
      rust_split_append nulChar _ _ hnotmem, List.filterMap_cons,
      extra_info_entry_of_good k v hkne hkeq hktr hveq hvtr, ih hmrest]

/-- The polling loop succeeds when the file appears strictly before the
counter runs out and the parent survives every sleep until then. -/
theorem read_file_loop_success (fs : FsTrace) (k : Nat) : ∀ n t, k < n →
    (∀ j, j < k → fs.fileExists (t + j) = false) →
    fs.fileExists (t + k) = true →
    (∀ j, j < k → fs.parentExists (t + 1 + j) = true) →
    read_file_loop fs n t = .ok (fs.contents (t + k)) := by
  induction k with
  | zero =>
    intro n t hn hfile hk _
    obtain ⟨n', rfl⟩ : ∃ n', n = n' + 1 := ⟨n - 1, by omega⟩
    simp only [read_file_loop]
    rw [if_pos (by simpa using hk), Nat.add_zero]
  | succ k ih =>
    intro n t hn hfile hk hparent
    obtain ⟨n', rfl⟩ : ∃ n', n = n' + 1 := ⟨n - 1, by omega⟩
    have h0 : fs.fileExists t = false := by simpa using hfile 0 (by omega)
    have hp0 : fs.parentExists (t + 1) = true := by simpa using hparent 0 (by omega)
    simp only [read_file_loop, h0, hp0]
    rw [if_neg (by simp), if_neg (by simp)]
    have := ih n' (t + 1) (by omega)
      (fun j hj => by
        have := hfile (j + 1) (by omega)
        simpa [Nat.add_assoc, Nat.add_comm 1 j] using this)
      (by
        have := hk
        rw [show t + (k + 1) = t + 1 + k by omega] at this
        exact this)
      (fun j hj => by
        have := hparent (j + 1) (by omega)
        simpa [show t + 1 + (j + 1) = t + 1 + 1 + j by omega] using this)
    rw [this, show t + 1 + k = t + (k + 1) by omega]

/-- The polling loop times out when the file is absent at every poll while
the counter is positive and the parent survives every sleep. -/
theorem read_file_loop_timeout (fs : FsTrace) (n : Nat) : ∀ t,
    (∀ j, j < n → fs.fileExists (t + j) = false) →
    (∀ j, j < n → fs.parentExists (t + 1 + j) = true) →
    read_file_loop fs n t = .error .timeout := by
  induction n with
  | zero => intro t _ _; rfl
  | succ n ih =>
    intro t hfile hparent
    have h0 : fs.fileExists t = false := by simpa using hfile 0 (by omega)
    have hp0 : fs.parentExists (t + 1) = true := by simpa using hparent 0 (by omega)
    simp only [read_file_loop, h0, hp0]
    rw [if_neg (by simp), if_neg (by simp)]
    exact ih (t + 1)
      (fun j hj => by
        have := hfile (j + 1) (by omega)
        simpa [show t + 1 + j = t + (j + 1) by omega] using this)
      (fun j hj => by
        have := hparent (j + 1) (by omega)
        simpa [show t + 1 + 1 + j = t + 1 + (j + 1) by omega] using this)

/-- The polling loop reports the disappearance of the parent as soon as a sleep
reveals it, provided the file has not appeared first. -/
theorem read_file_loop_parent_gone (fs : FsTrace) (m : Nat) : ∀ n t, m < n →
    (∀ j, j ≤ m → fs.fileExists (t + j) = false) →
    (∀ j, j < m → fs.parentExists (t + 1 + j) = true) →
    fs.parentExists (t + 1 + m) = false →
    read_file_loop fs n t = .error .parentGone := by
  induction m with
  | zero =>
    intro n t hn hfile _ hgone
    obtain ⟨n', rfl⟩ : ∃ n', n = n' + 1 := ⟨n - 1, by omega⟩
    have h0 : fs.fileExists t = false := by simpa using hfile 0 (by omega)
    simp only [read_file_loop, h0]
    rw [if_neg (by simp), if_pos (by simpa using hgone)]
  | succ m ih =>
    intro n t hn hfile hparent hgone
    obtain ⟨n', rfl⟩ : ∃ n', n = n' + 1 := ⟨n - 1, by omega⟩
    have h0 : fs.fileExists t = false := by simpa using hfile 0 (by omega)
    have hp0 : fs.parentExists (t + 1) = true := by simpa using hparent 0 (by omega)
    simp only [read_file_loop, h0, hp0]
    rw [if_neg (by simp), if_neg (by simp)]
    exact ih n' (t + 1) (by omega)
      (fun j hj => by
        have := hfile (j + 1) (by omega)
        simpa [show t + 1 + j = t + (j + 1) by omega] using this)
      (fun j hj => by
        have := hparent (j + 1) (by omega)
        simpa [show t + 1 + 1 + j = t + 1 + (j + 1) by omega] using this)
      (by
        have := hgone
        rwa [show t + 1 + (m + 1) = t + 1 + 1 + m by omega] at this)

/-- The debounce never submits earlier than two seconds after the recorded
moment, provided the moment is in the past. -/
theorem debounce_time_ge (now moment : Nat) (h : moment ≤ now) :
    moment + 2000 ≤ debounce_time now moment := by
  unfold debounce_time
  split <;> omega

/-- The debounce never moves time backwards. -/
theorem debounce_time_ge_now (now moment : Nat) :
    now ≤ debounce_time now moment := by
  unfold debounce_time
  split <;> omega

/-- When every queued entry reads and archives successfully, the drain
submits each of them, at the current drain time, and returns cleanly. -/
theorem drain_all_ok (q : List ProcJob) : ∀ st : ProcState,
    q.all (fun e => e.readOk && e.archiveOk) = true →
    (drain st q).1.submissions.length = st.submissions.length + q.length
      ∧ (drain st q).2 = true := by
  induction q with
  | nil => intro st _; simp [drain]
  | cons e q ih =>
    intro st hq
    simp only [List.all_cons, Bool.and_eq_true] at hq
    obtain ⟨⟨hr, ha⟩, hrest⟩ := hq
    simp only [drain, hr, ha, if_pos rfl, if_true]
    have := ih { now := st.now, submissions := st.submissions ++ [(e, st.now)] } hrest
    simpa [Nat.add_assoc, Nat.add_comm 1 q.length] using this

/-- Messages on the stop channel are invisible to `r.iter()`. -/
theorem worksOf_sig (b : Bool) (rest : List Step) :
    worksOf (.deliverSig b :: rest) = worksOf rest := rfl

/-- A work delivery contributes its entry to the drainable queue. -/
theorem worksOf_work (e : ProcJob) (rest : List Step) :
    worksOf (.deliverWork e :: rest) = e :: worksOf rest := rfl

/-! ### Claims -/

/-- Claim C1 (amended): every record submitted through the normal
work-event path of `process_create` is submitted at least 2000 ms after its
moment of construction; this holds on any schedule that never triggers the
cleanup drain (in particular whenever `cleanup = false`), provided each
delivered record was constructed no later than the current processor
time. -/
theorem c1_work_path_debounced (cleanup : Bool) (sched : List Step) :
    ∀ st : ProcState,
    (cleanup = false ∨ Step.deliverSig true ∉ sched) →
    ((worksOf sched).all fun e => e.moment ≤ st.now) = true →
    ∀ p ∈ (process_create cleanup sched st).1.submissions,
      p ∈ st.submissions ∨ p.1.moment + 2000 ≤ p.2 := by
  induction sched with
  | nil =>
    intro st _ _ p hp
    exact Or.inl hp
  | cons step rest ih =>
    intro st hcl hm p hp
    cases step with
    | deliverSig b =>
      rw [worksOf_sig] at hm
      cases b with
      | true =>
        rcases hcl with hc | hnotin
        · subst hc
          have hred : process_create false (.deliverSig true :: rest) st
              = (st, true) := rfl
          rw [hred] at hp
          exact Or.inl hp
        · exact absurd (List.mem_cons_self _ _) hnotin
      | false =>
        have hcl' : cleanup = false ∨ Step.deliverSig true ∉ rest := by
          rcases hcl with hc | hnotin
          · exact Or.inl hc
          · exact Or.inr (fun hmem => hnotin (List.mem_cons_of_mem _ hmem))
        have hred : process_create cleanup (.deliverSig false :: rest) st
            = process_create cleanup rest st := rfl
        rw [hred] at hp
        exact ih st hcl' hm p hp
    | deliverWork e =>
      rw [worksOf_work, List.all_cons, Bool.and_eq_true] at hm
      obtain ⟨hme, hmrest⟩ := hm
      have hme' : e.moment ≤ st.now := by simpa using hme
      have hcl' : cleanup = false ∨ Step.deliverSig true ∉ rest := by
        rcases hcl with hc | hnotin
        · exact Or.inl hc
        · exact Or.inr (fun hmem => hnotin (List.mem_cons_of_mem _ hmem))
      have htd : e.moment + 2000 ≤ debounce_time st.now e.moment :=
        debounce_time_ge st.now e.moment hme'
      have htn : st.now ≤ debounce_time st.now e.moment :=
        debounce_time_ge_now st.now e.moment
      simp only [process_create] at hp
      by_cases hr : e.readOk = true
      · rw [if_pos hr] at hp
        by_cases ha : e.archiveOk = true
        · rw [if_pos ha] at hp
          have hmrest' : ((worksOf rest).all fun e' =>
              e'.moment ≤ (ProcState.mk (debounce_time st.now e.moment)
                (st.submissions ++ [(e, debounce_time st.now e.moment)])).now) = true := by
            rw [List.all_eq_true] at hmrest ⊢
            intro x hx
            have := hmrest x hx
            simp only [decide_eq_true_eq] at this ⊢
            omega
          have := ih _ hcl' hmrest' p hp
          rcases this with hold | hgood
          · simp only [List.mem_append, List.mem_singleton] at hold
            rcases hold with h1 | h2
            · exact Or.inl h1
            · subst h2
              exact Or.inr htd
          · exact Or.inr hgood
        · rw [if_neg ha] at hp
          simp only [List.mem_append, List.mem_singleton] at hp
          rcases hp with h1 | h2
          · exact Or.inl h1
          · subst h2
            exact Or.inr htd
      · rw [if_neg hr] at hp
        exact Or.inl hp

/-- Claim C1 (counterexample): with `cleanup = true`, a record still in the
queue when the stop signal arrives is read and submitted by the shutdown
drain with no debounce: here a record constructed at time 5000 is submitted
at time 5000, less than 2 s after its moment. -/
theorem c1_drain_counterexample :
    ((process_create true
        [.deliverSig true, .deliverWork { moment := 5000, readOk := true, archiveOk := true }]
        { now := 5000, submissions := [] }).1.submissions
      = [({ moment := 5000, readOk := true, archiveOk := true }, 5000)])
    ∧ ¬ ((5000 : Nat) + 2000 ≤ 5000) := by
  exact ⟨rfl, by omega⟩

/-- Concrete schedule for the C1 witness: one ordinary work event. -/
def c1Job : ProcJob := { moment := 1000, readOk := true, archiveOk := true }

/-- Claim C1 (witness): the amended theorem applied to a concrete schedule
consisting of one work delivery handled at time 3000. -/
theorem c1_work_path_debounced_witness :
    (Step.deliverSig true ∉ [Step.deliverWork c1Job])
    ∧ (((worksOf [Step.deliverWork c1Job]).all fun e =>
        e.moment ≤ (ProcState.mk 3000 []).now) = true)
    ∧ ((c1Job, 3000) ∈ (process_create true [Step.deliverWork c1Job]
        (ProcState.mk 3000 [])).1.submissions)
    ∧ c1Job.moment + 2000 ≤ 3000 := by
  refine ⟨by decide, by decide, by decide, ?_⟩
  have := c1_work_path_debounced true [Step.deliverWork c1Job]
    (ProcState.mk 3000 []) (Or.inr (by decide)) (by decide) (c1Job, 3000) (by decide)
  simpa using this.resolve_left (by decide)

/-- Claim C2: the behaviour of `utils::read_file`, stated over the polling
loop: the file found with a positive counter remaining yields its contents;
a window with no file and a surviving parent yields the timeout error; a
parent that disappears during a sleep before the file appears yields the
immediate not-found error; the iteration bound defaults to 100. -/
theorem c2_read_file_behaviour :
    (∀ (fs : FsTrace) (n t k : Nat), k < n →
      ((List.range k).all fun j => fs.fileExists (t + j) = false) = true →
      fs.fileExists (t + k) = true →
      ((List.range k).all fun j => fs.parentExists (t + 1 + j) = true) = true →
      read_file_loop fs n t = .ok (fs.contents (t + k)))
    ∧ (∀ (fs : FsTrace) (n t : Nat),
      ((List.range n).all fun j => fs.fileExists (t + j) = false) = true →
      ((List.range n).all fun j => fs.parentExists (t + 1 + j) = true) = true →
      read_file_loop fs n t = .error .timeout)
    ∧ (∀ (fs : FsTrace) (n t m : Nat), m < n →
      ((List.range (m + 1)).all fun j => fs.fileExists (t + j) = false) = true →
      ((List.range m).all fun j => fs.parentExists (t + 1 + j) = true) = true →
      fs.parentExists (t + 1 + m) = false →
      read_file_loop fs n t = .error .parentGone)
    ∧ (∀ (fs : FsTrace) (i : Option Nat),
      read_file fs i = read_file_loop fs (i.getD 100) 0) := by
  refine ⟨?_, ?_, ?_, fun _ _ => rfl⟩
  · intro fs n t k hk hfile hex hparent
    simp only [List.all_eq_true, List.mem_range, decide_eq_true_eq] at hfile hparent
    exact read_file_loop_success fs k n t hk hfile hex hparent
  · intro fs n t hfile hparent
    simp only [List.all_eq_true, List.mem_range, decide_eq_true_eq] at hfile hparent
    exact read_file_loop_timeout fs n t hfile hparent
  · intro fs n t m hm hfile hparent hgone
    simp only [List.all_eq_true, List.mem_range, decide_eq_true_eq] at hfile hparent
    exact read_file_loop_parent_gone fs m n t hm (fun j hj => hfile j (by omega))
      hparent hgone

/-- A filesystem trace on which the file and its parent exist at all times,
with fixed contents. -/
def fsAlways : FsTrace :=
  { fileExists := fun _ => true, parentExists := fun _ => true,
    contents := fun _ => ['a'] }

/-- Claim C2 (counterexample): with iteration bound 0 and the file present
from the start, `read_file` returns the timeout not-found error instead of
the contents of the file — the `match iters` on loop exit reports a timeout
whenever the counter is 0, even though the file exists. -/
theorem c2_zero_bound_counterexample :
    read_file fsAlways (some 0) = .error .timeout
    ∧ fsAlways.fileExists 0 = true
    ∧ read_file fsAlways (some 0) ≠ .ok (fsAlways.contents 0) := by
  refine ⟨rfl, rfl, ?_⟩
  intro h
  rw [show read_file fsAlways (some 0) = .error .timeout from rfl] at h
  exact Except.noConfusion h

/-- A filesystem trace on which the file appears at tick 1 and the parent
always exists. -/
def fsAppears : FsTrace :=
  { fileExists := fun t => 1 ≤ t, parentExists := fun _ => true,
    contents := fun _ => ['c'] }

/-- Claim C2 (witness): the success conjunct of the behaviour theorem
applied to a file that appears after one 10 ms sleep with bound 2. -/
theorem c2_read_file_behaviour_witness :
    (1 < 2)
    ∧ (((List.range 1).all fun j => fsAppears.fileExists (0 + j) = false) = true)
    ∧ fsAppears.fileExists (0 + 1) = true
    ∧ (((List.range 1).all fun j => fsAppears.parentExists (0 + 1 + j) = true) = true)
    ∧ read_file_loop fsAppears 2 0 = .ok (fsAppears.contents (0 + 1)) :=
  ⟨by omega, by decide, by decide, by decide,
    c2_read_file_behaviour.1 fsAppears 2 0 1 (by omega) (by decide) (by decide)
      (by decide)⟩

/-- Claim C3: on receipt of a stop signal with `cleanup = true`, the
processor runs the drain on exactly the remaining work-channel contents —
the stop channel is not consulted again (the drain result is literally
`drain` of the work items, ignoring any further stop messages in the
schedule) — and, when every remaining entry reads and archives
successfully, the final number of archive submissions is the pre-shutdown
count plus the queue depth, after which the processor exits cleanly. -/
theorem c3_cleanup_drains_queue (st : ProcState) (rest : List Step)
    (h : ((worksOf rest).all fun e => e.readOk && e.archiveOk) = true) :
    process_create true (.deliverSig true :: rest) st = drain st (worksOf rest)
    ∧ (process_create true (.deliverSig true :: rest) st).1.submissions.length
        = st.submissions.length + (worksOf rest).length
    ∧ (process_create true (.deliverSig true :: rest) st).2 = true := by
  have h1 : process_create true (.deliverSig true :: rest) st
      = drain st (worksOf rest) := rfl
  have h2 := drain_all_ok (worksOf rest) st h
  exact ⟨h1, by rw [h1]; exact h2.1, by rw [h1]; exact h2.2⟩

/-- Concrete schedule for the C3 witness: two work items remain in the
queue at stop, a later stop message is also pending. -/
def c3Sched : List Step :=
  [Step.deliverWork { moment := 0, readOk := true, archiveOk := true },
   Step.deliverSig false,
   Step.deliverWork { moment := 100, readOk := true, archiveOk := true }]

/-- Claim C3 (witness): the drain theorem applied to the concrete schedule:
both queued records are submitted, none skipped. -/
theorem c3_cleanup_drains_queue_witness :
    (((worksOf c3Sched).all fun e => e.readOk && e.archiveOk) = true)
    ∧ (process_create true (.deliverSig true :: c3Sched)
        (ProcState.mk 50 [])).1.submissions.length
      = (ProcState.mk 50 []).submissions.length + (worksOf c3Sched).length :=
  ⟨by decide, (c3_cleanup_drains_queue (ProcState.mk 50 []) c3Sched (by decide)).2.1⟩

/-- Claim C4 (amended): an event whose kind is not the qualifying kind is
dropped: no work item is produced and `check_and_queue` returns `Ok(())`.
However, an event of the qualifying kind whose first path fails job-path
re-validation (`create_job_info` returns nothing) makes `check_and_queue`
return an error — no work item is produced, but the `?` in `monitor`
then terminates the watcher instead of keeping it running. -/
theorem c4_check_and_queue (isDir : List (List Char) → Bool)
    (cluster : List Char) (fr : Option (List Char → Bool)) (now : Nat)
    (sendOk : Bool) (ev : NotifyEvent) :
    (verify_event_kind ev = none →
      check_and_queue isDir cluster fr now sendOk ev = .ok [])
    ∧ (∀ p ps, verify_event_kind ev = some (p :: ps) →
        create_job_info isDir cluster fr now p = none →
        check_and_queue isDir cluster fr now sendOk ev = .err) := by
  constructor
  · intro h
    unfold check_and_queue
    rw [h]
  · intro p ps hv hc
    have hred : check_and_queue isDir cluster fr now sendOk ev
        = match create_job_info isDir cluster fr now p with
          | some j => if sendOk then .ok [j] else .err
          | none => .err := by
      unfold check_and_queue
      rw [hv]
    rw [hred, hc]

/-- A folder-creation event on a directory whose basename does not start
with `job.`. -/
def fubarEvent : NotifyEvent :=
  { kind := .create .folder, paths := [["tmp".toList, "fubar".toList]] }

/-- Claim C4 (counterexample): the event kind qualifies (`Create(Folder)`)
but the directory basename `fubar` does not start with `job.`, and
`check_and_queue` returns an error rather than success. -/
theorem c4_counterexample :
    verify_event_kind fubarEvent = some [["tmp".toList, "fubar".toList]]
    ∧ check_and_queue (fun _ => true) "c".toList none 0 true fubarEvent = .err
    ∧ check_and_queue (fun _ => true) "c".toList none 0 true fubarEvent
        ≠ .ok [] := by
  refine ⟨rfl, rfl, ?_⟩
  intro h
  rw [show check_and_queue (fun _ => true) "c".toList none 0 true fubarEvent
      = .err from rfl] at h
  exact CQResult.noConfusion h

/-- A modification event, not of the qualifying kind. -/
def modifyEvent : NotifyEvent := { kind := .modify, paths := [] }

/-- Claim C4 (witness): the amended theorem applied to a concrete
non-qualifying event and to the concrete qualifying-kind event with a
non-job path. -/
theorem c4_check_and_queue_witness :
    verify_event_kind modifyEvent = none
    ∧ check_and_queue (fun _ => true) "c".toList none 0 true modifyEvent = .ok []
    ∧ verify_event_kind fubarEvent = some [["tmp".toList, "fubar".toList]]
    ∧ create_job_info (fun _ => true) "c".toList none 0
        ["tmp".toList, "fubar".toList] = none
    ∧ check_and_queue (fun _ => true) "c".toList none 0 true fubarEvent = .err :=
  ⟨rfl,
    (c4_check_and_queue (fun _ => true) "c".toList none 0 true modifyEvent).1 rfl,
    rfl, rfl,
    (c4_check_and_queue (fun _ => true) "c".toList none 0 true fubarEvent).2
      ["tmp".toList, "fubar".toList] [] rfl rfl⟩

/-- A job entry holding only an environment payload, with no filter regex:
the configuration under which claim C5 parses. -/
def envOnlyEntry (bytes : List Char) : SlurmJobEntry :=
  { path_ := [], jobid_ := [], cluster_ := [], moment_ := 0,
    script_ := none, env_ := some bytes, filter_regex := none }

/-- Claim C5 (amended): serializing a mapping as a NUL-terminated sequence
of `KEY=VALUE` entries behind a 4-byte header and parsing it back with
`extra_info` (no filter regex) recovers the mapping, provided keys are
non-empty, keys and values contain no `=` and no NUL, and keys and values
carry no leading or trailing whitespace. -/
theorem c5_env_roundtrip (header : List Char) (m : List (List Char × List Char))
    (hh : header.length = 4) (hm : m.all goodKV = true) :
    extra_info (envOnlyEntry (spec_serialize_env header m)) = some m := by
  have hdrop : (spec_serialize_env header m).drop 4
      = (m.map (fun kv => kv.1 ++ '=' :: kv.2 ++ [nulChar])).flatten := by
    rw [spec_serialize_env, ← hh]
    exact List.drop_left _ _
  show some ((rust_split nulChar ((spec_serialize_env header m).drop 4)).filterMap
      (extra_info_entry none)) = some m
  rw [hdrop, parse_serialized_entries m hm]

/-- Claim C5 (counterexample): the key `K` satisfies every condition of the
claim (non-empty, no `=`, no NUL), yet the mapping `K -> a=b` does not
round-trip: the value contains `=`, so `split('=')` yields three parts and
the whole entry is kept as a key with empty value. -/
theorem c5_counterexample :
    extra_info (envOnlyEntry (spec_serialize_env (List.replicate 4 nulChar)
        [("K".toList, "a=b".toList)]))
      = some [("K=a=b".toList, ([] : List Char))]
    ∧ some [("K=a=b".toList, ([] : List Char))]
        ≠ some [("K".toList, "a=b".toList)]
    ∧ "K".toList ≠ []
    ∧ '=' ∉ "K".toList
    ∧ nulChar ∉ "K".toList := by
  refine ⟨by decide, by decide, by decide, by decide, by decide⟩

/-- Concrete mapping for the C5 witness. -/
def c5Pairs : List (List Char × List Char) :=
  [("PATH".toList, "/usr/bin".toList), ("HOME".toList, "/root".toList)]

/-- Claim C5 (witness): the round-trip theorem applied to a concrete
two-entry mapping with the all-NUL header. -/
theorem c5_env_roundtrip_witness :
    (List.replicate 4 nulChar).length = 4
    ∧ c5Pairs.all goodKV = true
    ∧ extra_info (envOnlyEntry (spec_serialize_env (List.replicate 4 nulChar)
        c5Pairs)) = some c5Pairs :=
  ⟨rfl, by decide, c5_env_roundtrip (List.replicate 4 nulChar) c5Pairs rfl (by decide)⟩

/-- A freshly constructed job entry, before any read. -/
def baseEntry : SlurmJobEntry :=
  SlurmJobEntry.new [] "1".toList "c".toList none 0

/-- Claim C6 (amended): after a successful `read_job_info`, the stored
script is the bytes read with a single trailing NUL (when present) removed,
and the stored environment is the bytes read, unchanged — the trailing-NUL
drop applies to the script, not to the environment. -/
theorem c6_read_job_info_stores (e : SlurmJobEntry) (s v : List Char) :
    read_job_info e (.ok s) (.ok v)
      = ({ e with
            script_ := some (if s.getLast? = some nulChar then s.dropLast else s),
            env_ := some v }, none) := rfl

/-- Claim C6 (counterexample): with both spool files ending in a NUL byte,
the stored environment keeps its trailing NUL and the stored script loses
its trailing NUL — the opposite of the claim on both counts. -/
theorem c6_counterexample :
    (read_job_info baseEntry (.ok ['s', nulChar]) (.ok ['e', nulChar])).1.env_
      = some ['e', nulChar]
    ∧ some ['e', nulChar] ≠ some ['e']
    ∧ (read_job_info baseEntry (.ok ['s', nulChar]) (.ok ['e', nulChar])).1.script_
      = some ['s']
    ∧ some ['s'] ≠ some ['s', nulChar] := by
  refine ⟨by decide, by decide, by decide, by decide⟩

/-- Claim C7 (amended): the filesystem sink writes, for each record, files
whose bytes are exactly the bytes stored by `read_job_info`: the
environment byte-identical to the spool read, the script byte-identical
except that a single trailing NUL is dropped. -/
theorem c7_file_archive_writes (target : List (List Char)) (e : SlurmJobEntry)
    (s v : List Char) :
    (file_archive_writes target (read_job_info e (.ok s) (.ok v)).1).map Prod.snd
      = [if s.getLast? = some nulChar then s.dropLast else s, v] := rfl

/-- Claim C7 (counterexample): a spool script of bytes `a NUL` is archived
as the single byte `a`: the written file is not byte-identical to what was
read from the spool. -/
theorem c7_counterexample :
    ((file_archive_writes ["A".toList]
        (read_job_info baseEntry (.ok ['a', nulChar]) (.ok ['e'])).1).map Prod.snd
      = [['a'], ['e']])
    ∧ (['a'] : List Char) ≠ ['a', nulChar] := by
  refine ⟨by decide, by decide⟩

/-- Claim C8: with the shared flag never set (no signal ever delivered),
`signal_handler_atomic` exits its wait loop on the very first load — the
`while sig.load(SeqCst)` condition is inverted — and immediately broadcasts
its twenty `true` values, contradicting the claim that the broadcast only
happens after the flag has been observed `true`. -/
theorem c8_relay_fires_without_signal :
    signal_handler_atomic (fun _ => false) 1 = some (List.replicate 20 true)
    ∧ signal_handler_loop (fun _ => false) 1 0 = some 0 := ⟨rfl, rfl⟩

/-- Claim C9: the archive of the Kafka sink returns success exactly when
serialization of the document succeeds — either outcome of the producer
send maps to success — and returns `InvalidData` exactly when
serialization fails. -/
theorem c9_kafka_fire_and_forget (serialize : JobMessage → Option (List Char))
    (sendOk : Bool) (e : SlurmJobEntry) (now : Nat) (script : List Char) :
    (kafka_archive serialize sendOk (kafka_doc e now script) = .ok ()
      ↔ (serialize (kafka_doc e now script)).isSome = true)
    ∧ (kafka_archive serialize sendOk (kafka_doc e now script) = .error .invalidData
        ↔ serialize (kafka_doc e now script) = none) := by
  unfold kafka_archive
  cases h : serialize (kafka_doc e now script) with
  | some s => cases sendOk <;> simp
  | none => simp

/-- Claim C10: on an entry whose script was never populated, `script()`
panics (modelled as `none`), while `files()` returns normally, simply
omitting the unpopulated members. -/
theorem c10_script_panics_files_total (e : SlurmJobEntry) (h : e.script_ = none) :
    e.scriptResult = none
    ∧ e.files = (match e.env_ with
        | some v => [("job.".toList ++ e.jobid_ ++ "_".toList
            ++ "environment".toList, v)]
        | none => []) := by
  constructor
  · unfold SlurmJobEntry.scriptResult
    rw [h]
  · unfold SlurmJobEntry.files
    rw [h]
    cases e.env_ <;> simp

/-- An entry on which `read_job_info` never ran for the script, with an
environment present. -/
def unreadEntry : SlurmJobEntry := { baseEntry with env_ := some ['x'] }

/-- Claim C10 (witness): the theorem applied to a concrete entry with no
script and an environment of one byte. -/
theorem c10_script_panics_files_total_witness :
    unreadEntry.script_ = none
    ∧ unreadEntry.scriptResult = none
    ∧ unreadEntry.files = [("job.".toList ++ "1".toList ++ "_".toList
        ++ "environment".toList, ['x'])] :=
  ⟨rfl, (c10_script_panics_files_total unreadEntry rfl).1,
    (c10_script_panics_files_total unreadEntry rfl).2⟩

end Sarchive
